import Mathlib

/-!
Verification of the prediction engine of MEV1N/prediction
(src/components/number-chart.tsx).  That file contains three model
variants:

* Variant A - categorical engine over the 1..5 range (categorize,
  validateInput, buildTransitionMatrix, predictNext).
* Variant B - logistic spike predictor (extractFeatures, predictNext,
  updateModel).
* Variant C - 1-hidden-layer network (predictNextAbove7, updateModel,
  resetModel, getModelParameters / setModelParameters).

JavaScript numbers are modelled as rationals where the code is exact
decimal arithmetic (variant A; every value the claims touch is
float-exact there) and as reals for the transcendental parts of
variants B and C.  Thrown exceptions are modelled with Except,
undefined / missing fields with Option, and the mutable module-level
model parameters as explicit state records threaded through the
operations.
-/

namespace VariantA

/-- Result record of validateInput: valid flag plus optional error text. -/
structure VResult where
  valid : Bool
  error : Option String := none
  deriving Repr, DecidableEq

/-- A JavaScript number as seen by the validator: NaN, an infinity, or a
finite value. -/
inductive JSNum where
  | nan
  | posInf
  | negInf
  | fin (q : ℚ)
  deriving Repr, DecidableEq

/-- IEEE-754 comparison x < y as JavaScript evaluates it: any comparison
with NaN is false, -∞ is below and +∞ above every finite value. -/
def jsLt : JSNum → JSNum → Bool
  | .nan, _ => false
  | _, .nan => false
  | .negInf, .negInf => false
  | .negInf, _ => true
  | _, .negInf => false
  | .posInf, _ => false
  | .fin _, .posInf => true
  | .fin a, .fin b => a < b

/-- JavaScript isNaN on an already-numeric argument. -/
def jsIsNaN : JSNum → Bool
  | .nan => true
  | _ => false

/-- validateInput of variant A (number-chart.tsx lines 323-328): NaN check
first, then the two range checks. -/
def validateInput (x : JSNum) : VResult :=
  if jsIsNaN x then { valid := false, error := some "Please enter a valid number" }
  else if jsLt x (.fin 1) then { valid := false, error := some "Value must be between 1.00 and 5.00" }
  else if jsLt (.fin 5) x then { valid := false, error := some "Value must be between 1.00 and 5.00" }
  else { valid := true }

/-- categorize (lines 313-318): throws outside 1..5, otherwise buckets by
the 2.5 and 3.75 thresholds. -/
def categorize (x : ℚ) : Except String ℕ :=
  if x < 1 ∨ x > 5 then .error "Value out of range (1–5)"
  else if x ≤ 2.5 then .ok 0
  else if x ≤ 3.75 then .ok 1
  else .ok 2

/-- getCategoryLabel (lines 333-336); the clamp Math.max(0, Math.min(2, c))
becomes min c 2 over ℕ. -/
def getCategoryLabel (category : ℕ) : String :=
  ["Low", "Mid", "High"].getD (min category 2) "Low"

/-- calculateConfidence (lines 368-372): ((6 - unique) / 5) * 100 rendered
with toFixed(0); the produced numeric value is modelled, with the rounding
made explicit (it is exact: the value is always an integer multiple of 20,
and the IEEE evaluation of the formula rounds to that integer). -/
def calculateConfidence (lags : List ℕ) : ℤ :=
  round ((((6 : ℚ) - lags.toFinset.card) / 5) * 100)

/-- One step of matrix[key] = (matrix[key] || 0) + 1 on a JS record, which
keeps insertion order and appends unseen keys at the end. -/
def tmUpdate : List ((ℕ × ℕ) × ℕ) → ℕ × ℕ → List ((ℕ × ℕ) × ℕ)
  | [], k => [(k, 1)]
  | (k', c) :: rest, k =>
      if k' = k then (k', c + 1) :: rest else (k', c) :: tmUpdate rest k

/-- buildTransitionMatrix (lines 377-388): for every adjacent pair of the
sequence, categorize both ends and bump the count of that ordered pair;
a categorize exception aborts the build. -/
def buildTransitionMatrix (s : List ℚ) : Except String (List ((ℕ × ℕ) × ℕ)) :=
  List.foldlM
    (fun m i => do
      let fromState ← categorize (s.getD i 0)
      let toState ← categorize (s.getD (i + 1) 0)
      pure (tmUpdate m (fromState, toState)))
    [] (List.range (s.length - 1))

/-- The Prediction record of variant A (label plus the confidence value). -/
structure Prediction where
  label : String
  confidence : ℤ
  deriving Repr, DecidableEq

/-- predictNext (lines 394-404).  lags.sort(cmp) sorts the lag list in
place, stably, ascending by occurrence count (the counts the comparator
reads are invariant under the permutation being built); .pop() then removes
the sorted array's last element, so calculateConfidence runs on the sorted
list minus that element, and an empty pop falls back to state 0.
countLe is that comparator: ascending by occurrence count in the lag list. -/
def countLe (L : List ℕ) (a b : ℕ) : Bool := L.count a ≤ L.count b

def predictNext (s : List ℚ) : Except String Prediction := do
  let states ← s.mapM categorize
  let lags := states.drop (states.length - 5)
  let sorted := lags.mergeSort (countLe lags)
  let mode := sorted.getLast?.getD 0
  pure { label := getCategoryLabel mode
         confidence := calculateConfidence sorted.dropLast }

/-- Spec-side view of sequence.map(categorize) for in-range sequences:
out-of-range values are dropped instead of thrown; the in-range hypotheses
of the theorems make the two views coincide. -/
def statesOf (s : List ℚ) : List ℕ :=
  s.filterMap fun x => (categorize x).toOption

/-- The last-5 categorized lag states of a sequence. -/
def lagsOf (s : List ℚ) : List ℕ :=
  (statesOf s).drop ((statesOf s).length - 5)

/-- The lag states stably sorted ascending by occurrence count. -/
def sortedLagsOf (s : List ℚ) : List ℕ :=
  (lagsOf s).mergeSort (countLe (lagsOf s))

/-- The state predictNext picks: last element of the count-sorted lags. -/
def modeOf (s : List ℚ) : ℕ := (sortedLagsOf s).getLast?.getD 0

/-- Number of distinct states among the last-5 lag states. -/
def uniqueStatesInLast5 (s : List ℚ) : ℕ := (lagsOf s).toFinset.card

lemma categorize_isOk {x : ℚ} (h1 : 1 ≤ x) (h2 : x ≤ 5) :
    ∃ c, categorize x = .ok c ∧ c ≤ 2 := by
  have hcond : ¬(x < 1 ∨ x > 5) := by
    push_neg
    exact ⟨h1, h2⟩
  unfold categorize
  rw [if_neg hcond]
  rcases le_or_lt x 2.5 with h | h
  · exact ⟨0, by rw [if_pos h], by norm_num⟩
  · rcases le_or_lt x 3.75 with h' | h'
    · exact ⟨1, by rw [if_neg (not_le.2 h), if_pos h'], by norm_num⟩
    · exact ⟨2, by rw [if_neg (not_le.2 h), if_neg (not_le.2 h')], le_refl 2⟩

lemma mapM_categorize_ok {s : List ℚ} (h : ∀ x ∈ s, 1 ≤ x ∧ x ≤ 5) :
    s.mapM categorize = Except.ok (statesOf s) := by
  induction s with
  | nil => rfl
  | cons a l ih =>
      obtain ⟨c, hc, -⟩ := categorize_isOk (h a (by simp)).1 (h a (by simp)).2
      have ihl : l.mapM categorize = Except.ok (statesOf l) :=
        ih fun x hx => h x (by simp [hx])
      have hopt : (categorize a).toOption = some c := by
        rw [hc]; rfl
      rw [List.mapM_cons, hc, ihl]
      show Except.ok (c :: statesOf l) = _
      simp [statesOf, List.filterMap_cons, hopt]

end VariantA

/-- C1: for every x with 1 ≤ x ≤ 5, categorize succeeds and returns the
state dictated by the thresholds (x ≤ 2.5 gives 0, 2.5 < x ≤ 3.75 gives 1,
x > 3.75 gives 2), with the boundary checks categorize 2.5 = 0,
categorize 2.500001 = 1, categorize 3.75 = 1, categorize 3.750001 = 2; for
x < 1 or x > 5 it fails with the out-of-range error. -/
theorem c1_categorize_thresholds (x : ℚ) :
    (1 ≤ x → x ≤ 5 →
      ((x ≤ 2.5 ∧ VariantA.categorize x = .ok 0) ∨
       (2.5 < x ∧ x ≤ 3.75 ∧ VariantA.categorize x = .ok 1) ∨
       (3.75 < x ∧ VariantA.categorize x = .ok 2))) ∧
    ((x < 1 ∨ 5 < x) → VariantA.categorize x = .error "Value out of range (1–5)") ∧
    VariantA.categorize 2.5 = .ok 0 ∧
    VariantA.categorize (2.500001 : ℚ) = .ok 1 ∧
    VariantA.categorize 3.75 = .ok 1 ∧
    VariantA.categorize (3.750001 : ℚ) = .ok 2 := by
  refine ⟨?_, ?_, by norm_num [VariantA.categorize], by norm_num [VariantA.categorize], by norm_num [VariantA.categorize], by norm_num [VariantA.categorize]⟩
  · intro h1 h2
    have hcond : ¬(x < 1 ∨ x > 5) := by
      push_neg
      exact ⟨h1, h2⟩
    rcases le_or_lt x 2.5 with h | h
    · exact Or.inl ⟨h, by unfold VariantA.categorize; rw [if_neg hcond, if_pos h]⟩
    · rcases le_or_lt x 3.75 with h' | h'
      · exact Or.inr (Or.inl ⟨h, h', by
          unfold VariantA.categorize
          rw [if_neg hcond, if_neg (not_le.2 h), if_pos h']⟩)
      · exact Or.inr (Or.inr ⟨h', by
          unfold VariantA.categorize
          rw [if_neg hcond, if_neg (not_le.2 h), if_neg (not_le.2 h')]⟩)
  · intro h
    unfold VariantA.categorize
    rw [if_pos h]

/-- Witness for C1 at x = 3: the hypotheses 1 ≤ 3 ≤ 5 hold and the
conclusion places 3 in the Mid band. -/
theorem c1_categorize_thresholds_witness :
    ((3 : ℚ) ≤ 2.5 ∧ VariantA.categorize 3 = .ok 0) ∨
    (2.5 < (3 : ℚ) ∧ (3 : ℚ) ≤ 3.75 ∧ VariantA.categorize 3 = .ok 1) ∨
    (3.75 < (3 : ℚ) ∧ VariantA.categorize 3 = .ok 2) :=
  (c1_categorize_thresholds 3).1 (by norm_num) (by norm_num)

/-- C7 counterexample: the variant A validator checks only isNaN before the
range tests, so +∞ (and -∞) produce the out-of-range message, not the
not-a-number message the claim requires for every non-finite input. -/
theorem c7_validate_counterexample :
    VariantA.validateInput .posInf =
      { valid := false, error := some "Value must be between 1.00 and 5.00" } ∧
    VariantA.validateInput .negInf =
      { valid := false, error := some "Value must be between 1.00 and 5.00" } ∧
    (some "Value must be between 1.00 and 5.00" : Option String) ≠
      some "Please enter a valid number" := by
  refine ⟨rfl, rfl, by decide⟩

/-- C7 amended: validateInput fails with the NotANumber error exactly on
NaN; it fails with the OutOfRange error exactly on ±∞ and on finite x with
x < 1 or x > 5 (the infinities fall through the isNaN test into the range
checks). -/
theorem c7_validate_errors (x : VariantA.JSNum) :
    (VariantA.validateInput x =
        { valid := false, error := some "Please enter a valid number" } ↔
      x = .nan) ∧
    (VariantA.validateInput x =
        { valid := false, error := some "Value must be between 1.00 and 5.00" } ↔
      (x = .posInf ∨ x = .negInf ∨ ∃ q, x = .fin q ∧ (q < 1 ∨ 5 < q))) := by
  cases x with
  | nan =>
      refine ⟨by simp [VariantA.validateInput, VariantA.jsIsNaN], ?_⟩
      simp only [VariantA.validateInput, VariantA.jsIsNaN, if_pos]
      constructor
      · intro h
        exact absurd h (by decide)
      · rintro (h | h | ⟨q, h, -⟩) <;> exact absurd h (by simp)
  | posInf =>
      refine ⟨?_, by simp [VariantA.validateInput, VariantA.jsIsNaN, VariantA.jsLt]⟩
      constructor
      · intro h
        exact absurd h (by decide)
      · intro h
        exact absurd h (by simp)
  | negInf =>
      refine ⟨?_, by simp [VariantA.validateInput, VariantA.jsIsNaN, VariantA.jsLt]⟩
      constructor
      · intro h
        exact absurd h (by decide)
      · intro h
        exact absurd h (by simp)
  | fin q =>
      have hnan : VariantA.jsIsNaN (.fin q) = false := rfl
      constructor
      · constructor
        · intro h
          by_cases h1 : q < 1
          · rw [VariantA.validateInput] at h
            simp only [hnan, Bool.false_eq_true, if_false,
              VariantA.jsLt, decide_eq_true_eq, h1, if_pos] at h
            exact absurd (congrArg VariantA.VResult.error h) (by decide)
          · by_cases h5 : (5 : ℚ) < q
            · rw [VariantA.validateInput] at h
              simp only [hnan, Bool.false_eq_true, if_false,
                VariantA.jsLt, decide_eq_true_eq, h1, if_neg, h5, if_pos] at h
              exact absurd (congrArg VariantA.VResult.error h) (by decide)
            · rw [VariantA.validateInput] at h
              simp only [hnan, Bool.false_eq_true, if_false,
                VariantA.jsLt, decide_eq_true_eq, h1, h5, if_neg] at h
              exact absurd (congrArg VariantA.VResult.valid h) (by decide)
        · intro h
          exact absurd h (by simp)
      · constructor
        · intro h
          refine Or.inr (Or.inr ⟨q, rfl, ?_⟩)
          by_contra hc
          push_neg at hc
          rw [VariantA.validateInput] at h
          simp only [hnan, Bool.false_eq_true, if_false,
            VariantA.jsLt, decide_eq_true_eq, not_lt.2 hc.1, not_lt.2 hc.2,
            if_neg, not_false_eq_true] at h
          exact absurd (congrArg VariantA.VResult.valid h) (by decide)
        · rintro (h | h | ⟨q', hq, hr⟩)
          · exact absurd h (by simp)
          · exact absurd h (by simp)
          · cases hq
            rcases hr with h1 | h5
            · rw [VariantA.validateInput]
              simp only [hnan, Bool.false_eq_true, if_false,
                VariantA.jsLt, decide_eq_true_eq, h1, if_pos]
            · rw [VariantA.validateInput]
              have h1 : ¬q < 1 := by linarith
              simp only [hnan, Bool.false_eq_true, if_false,
                VariantA.jsLt, decide_eq_true_eq, h1, if_neg, h5, if_pos,
                not_false_eq_true]

namespace VariantB

/-- The statistical features of variant B. -/
structure Features where
  mean : ℝ
  std : ℝ
  slope : ℝ

/-- The logistic model weights (module-level mutable state in the source,
threaded explicitly here). -/
structure ModelWeights where
  intercept : ℝ
  meanWeight : ℝ
  stdWeight : ℝ
  slopeWeight : ℝ

/-- The initial weights (number-chart.tsx lines 444-449). -/
noncomputable def initWeights : ModelWeights :=
  { intercept := -3.5, meanWeight := 0.4, stdWeight := 1.1, slopeWeight := 0.8 }

/-- calculateMean (lines 463-467). -/
noncomputable def calculateMean (values : List ℝ) : ℝ :=
  if values.length = 0 then 0 else values.sum / values.length

/-- calculateStd (lines 472-478): unweighted population std. -/
noncomputable def calculateStd (values : List ℝ) : ℝ :=
  if values.length = 0 then 0
  else
    Real.sqrt ((values.map fun v => (v - calculateMean values) ^ 2).sum / values.length)

/-- calculateSlope (lines 483-486): last minus first. -/
noncomputable def calculateSlope (values : List ℝ) : ℝ :=
  if values.length < 2 then 0
  else values.getD (values.length - 1) 0 - values.getD 0 0

/-- extractFeatures (lines 492-504): rolling window of the last 10 values. -/
noncomputable def extractFeatures (sequence : List ℝ) : Features :=
  let window := sequence.drop (sequence.length - 10)
  if window.length = 0 then { mean := 0, std := 0, slope := 0 }
  else
    { mean := calculateMean window
      std := calculateStd window
      slope := calculateSlope window }

/-- sigmoid (lines 509-511): no clamping in variant B. -/
noncomputable def sigmoid (z : ℝ) : ℝ := 1 / (1 + Real.exp (-z))

/-- The logistic score z (lines 589-593). -/
def zScore (w : ModelWeights) (f : Features) : ℝ :=
  w.intercept + w.meanWeight * f.mean + w.stdWeight * f.std + w.slopeWeight * f.slope

/-- The probability sigmoid(z) (line 596). -/
noncomputable def probOf (w : ModelWeights) (f : Features) : ℝ := sigmoid (zScore w f)

/-- The confidence min(100, |p - 0.5| * 200) (line 602). -/
noncomputable def confOf (w : ModelWeights) (f : Features) : ℝ :=
  min 100 (|probOf w f - 0.5| * 200)

/-- getCertaintyLabel (lines 562-566). -/
noncomputable def getCertaintyLabel (confidence : ℝ) : String :=
  if confidence ≥ 80 then "High Certainty"
  else if confidence ≥ 60 then "Medium Certainty"
  else "Low Certainty"

/-- generateReason (lines 516-557): threshold-driven phrase list joined
with ", " (the trend branch always contributes, so the fallback line 552
is dead, but it is modelled anyway). -/
noncomputable def generateReason (f : Features) (probability : ℝ) : String :=
  let meanReasons : List String :=
    if f.mean > 6 then ["rolling mean approaching spike threshold"]
    else if f.mean > 4 then ["elevated rolling mean"]
    else if f.mean < 2 then ["low rolling mean suggests stability"]
    else []
  let stdReasons : List String :=
    if f.std > 2 then ["high volatility detected"]
    else if f.std > 1 then ["moderate volatility"]
    else if f.std < 0.5 then ["stable pattern with low variance"]
    else []
  let slopeReasons : List String :=
    if f.slope > 3 then ["strong upward trend"]
    else if f.slope > 1 then ["gradual upward trend"]
    else if f.slope < -3 then ["strong downward trend"]
    else if f.slope < -1 then ["gradual downward trend"]
    else ["stable trend"]
  let reasons := meanReasons ++ stdReasons ++ slopeReasons
  if reasons.length = 0 then
    if probability > 0.5 then "pattern indicators suggest spike likely"
    else "no strong spike indicators detected"
  else String.intercalate ", " reasons

/-- JavaScript's Number(x.toFixed(d)) on a real value: round to d decimal
digits, ties away from zero for positive values (Lean's round matches JS
on every value the theorems touch). -/
noncomputable def toFixedVal (d : ℕ) (x : ℝ) : ℝ := (round (x * 10 ^ d) : ℤ) / 10 ^ d

/-- The SpikePrediction record (lines 423-434). -/
structure SpikePrediction where
  predictedSpike : Bool
  probability : ℝ
  confidence : ℝ
  certaintyLabel : String
  reason : String
  features : Features

/-- predictNext of variant B (lines 572-618): neutral default below two
observations, otherwise logistic scoring over the extracted features, with
the returned probability rounded to 4 decimals and the confidence to an
integer (the certainty label is computed from the unrounded confidence). -/
noncomputable def predictNext (w : ModelWeights) (sequence : List ℝ) : SpikePrediction :=
  if sequence.length < 2 then
    { predictedSpike := false
      probability := 0.5
      confidence := 0
      certaintyLabel := "Low Certainty"
      reason := "insufficient data for prediction"
      features := { mean := 0, std := 0, slope := 0 } }
  else
    let features := extractFeatures sequence
    { predictedSpike := decide (probOf w features > 0.5)
      probability := toFixedVal 4 (probOf w features)
      confidence := toFixedVal 0 (confOf w features)
      certaintyLabel := getCertaintyLabel (confOf w features)
      reason := generateReason features (probOf w features)
      features := features }

end VariantB

/-- C9: for every weight state and every sequence with fewer than two
observations, variant B predictNext returns the neutral default:
probability 0.5, decision false, confidence 0 (and it cannot fail - it is
a total function). -/
theorem c9_insufficient_data_default (w : VariantB.ModelWeights)
    (s : List ℝ) (h : s.length < 2) :
    (VariantB.predictNext w s).probability = 0.5 ∧
    (VariantB.predictNext w s).predictedSpike = false ∧
    (VariantB.predictNext w s).confidence = 0 := by
  rw [VariantB.predictNext, if_pos h]
  exact ⟨rfl, rfl, rfl⟩

/-- Witness for C9 at the empty sequence and the initial weights. -/
theorem c9_insufficient_data_default_witness :
    (VariantB.predictNext VariantB.initWeights []).probability = 0.5 ∧
    (VariantB.predictNext VariantB.initWeights []).predictedSpike = false ∧
    (VariantB.predictNext VariantB.initWeights []).confidence = 0 :=
  c9_insufficient_data_default VariantB.initWeights [] (by norm_num)

namespace VariantC

/-- The mutable module-level parameters of variant C (lines 58-61),
threaded explicitly. -/
structure ModelParams where
  W1 : List ℝ
  b1 : ℝ
  W2 : ℝ
  b2 : ℝ

/-- The initial tuned parameters (lines 58-61). -/
noncomputable def initParams : ModelParams :=
  { W1 := [0.2, 0.5, 0.8, -0.4, 0.6, 0.3, -0.2, 0.5]
    b1 := 0.1
    W2 := 2.4
    b2 := -3.0 }

/-- LEARNING_RATE (line 63). -/
noncomputable def LEARNING_RATE : ℝ := 0.01

/-- DECAY_FACTOR (line 64). -/
noncomputable def DECAY_FACTOR : ℝ := 0.85

/-- DECISION_THRESHOLD (line 65). -/
noncomputable def DECISION_THRESHOLD : ℝ := 0.55

/-- tanh (lines 163-169) with the ±20 stability clamp. -/
noncomputable def tanh (x : ℝ) : ℝ :=
  if x > 20 then 1
  else if x < -20 then -1
  else (Real.exp x - Real.exp (-x)) / (Real.exp x + Real.exp (-x))

/-- sigmoid (lines 175-179) with the ±20 stability clamp. -/
noncomputable def sigmoid (x : ℝ) : ℝ :=
  if x > 20 then 1
  else if x < -20 then 0
  else 1 / (1 + Real.exp (-x))

/-- N = min(sequence.length, 10) (line 95). -/
def NOf (s : List ℝ) : ℕ := min s.length 10

/-- recent = sequence.slice(-N) (line 96). -/
def recentOf (s : List ℝ) : List ℝ := s.drop (s.length - NOf s)

/-- The temporal weights of line 99: position i of the window (0-based)
carries 0.85^(N-i). -/
noncomputable def wtsOf (s : List ℝ) : List ℝ :=
  (List.range (NOf s)).map fun i => DECAY_FACTOR ^ (NOf s - i)

/-- totalWeight (line 100). -/
noncomputable def totalWeightOf (s : List ℝ) : ℝ := (wtsOf s).sum

/-- The weighted mean of lines 103-104. -/
noncomputable def meanOf (s : List ℝ) : ℝ :=
  (List.zipWith (fun v w => v * w) (recentOf s) (wtsOf s)).sum / totalWeightOf s

/-- The weighted variance of lines 107-108. -/
noncomputable def varianceOf (s : List ℝ) : ℝ :=
  (List.zipWith (fun v w => w * (v - meanOf s) ^ 2) (recentOf s) (wtsOf s)).sum /
    totalWeightOf s

/-- The weighted std of line 109 (the || 0 guard only replaces a NaN from
a negative radicand, and Real.sqrt already sends negatives to 0). -/
noncomputable def stdOf (s : List ℝ) : ℝ := Real.sqrt (varianceOf s)

/-- Math.sign(x || 1): the || 1 turns 0 into 1, so the result is ±1. -/
noncomputable def signOr1 (x : ℝ) : ℝ :=
  if x = 0 then 1 else if x > 0 then 1 else -1

/-- The feature vector F = [1, μ, σ, slope, last, log, μσ, slope²]
(lines 112-123). -/
noncomputable def featuresOf (s : List ℝ) : List ℝ :=
  let trend := (recentOf s).getD (NOf s - 1) 0 - (recentOf s).getD 0 0
  let last := (recentOf s).getD (NOf s - 1) 0
  [1, meanOf s, stdOf s, trend, last,
   Real.log (|last| + 1) * signOr1 last,
   meanOf s * stdOf s, trend * trend]

/-- The PredictionResult record (lines 71-78).  The reasoning string is a
pure function of (μ, σ, trend, last, probability) with toFixed(1) display
formatting and carries no further model state, so it is not replicated
here. -/
structure PredictionResult where
  willExceed7 : Bool
  probability : ℝ
  confidence : ℝ
  features : Option (List ℝ) := none
  hiddenActivation : Option ℝ := none

/-- predictNextAbove7 (lines 84-153): early return on the empty sequence,
otherwise forward pass h = tanh(b1 + F·W1), z = W2·h + b2, P = sigmoid(z),
decision P > 0.55, confidence |P - 0.5|·200, with F and h retained for the
learning step. -/
noncomputable def predictNextAbove7 (P : ModelParams) (sequence : List ℝ) :
    PredictionResult :=
  if sequence.length = 0 then
    { willExceed7 := false, probability := 0.5, confidence := 0 }
  else
    let F := featuresOf sequence
    let hiddenInput := (List.zipWith (fun f w => f * w) F P.W1).foldl (fun a b => a + b) P.b1
    let hidden := tanh hiddenInput
    let z := P.W2 * hidden + P.b2
    let probability := sigmoid z
    { willExceed7 := decide (probability > DECISION_THRESHOLD)
      probability := probability
      confidence := |probability - 0.5| * 200
      features := some F
      hiddenActivation := some hidden }

/-- updateModel (lines 222-247): gradient step skipped when the retained
features or hidden activation are missing. -/
noncomputable def updateModel (actualValue : ℝ)
    (predictionResult : PredictionResult) (P : ModelParams) : ModelParams :=
  let y : ℝ := if actualValue > 7 then 1 else 0
  let error := y - predictionResult.probability
  match predictionResult.features, predictionResult.hiddenActivation with
  | some F, some h =>
      { W1 := List.zipWith (fun w f => w + LEARNING_RATE * error * f) P.W1 F
        b1 := P.b1 + LEARNING_RATE * error
        W2 := P.W2 + LEARNING_RATE * error * h
        b2 := P.b2 + LEARNING_RATE * error }
  | _, _ => P

/-- resetModel (lines 252-257). -/
noncomputable def resetModel (_ : ModelParams) : ModelParams :=
  { W1 := [0.2, 0.5, 0.8, -0.4, 0.6, 0.3, -0.2, 0.5]
    b1 := 0.1
    W2 := 2.4
    b2 := -3.0 }

/-- getModelParameters (lines 262-269): exports a copy of the current
parameters ([...W1] is a fresh array; list values need no copy here). -/
def getModelParameters (P : ModelParams) : ModelParams :=
  { W1 := P.W1, b1 := P.b1, W2 := P.W2, b2 := P.b2 }

/-- setModelParameters (lines 274-284): overwrites every parameter from
the imported snapshot. -/
def setModelParameters (params : ModelParams) (_ : ModelParams) : ModelParams :=
  { W1 := params.W1, b1 := params.b1, W2 := params.W2, b2 := params.b2 }

/-- The spec's recency weights w_i = 0.85^(N-i) for i = 1..N (i = N, the
most recent, has weight 1); 0-based position j then carries 0.85^(N-1-j).
Stated from the spec's words for comparison against wtsOf. -/
noncomputable def specWtsOf (s : List ℝ) : List ℝ :=
  (List.range (NOf s)).map fun i => DECAY_FACTOR ^ (NOf s - 1 - i)

/-- The spec's weighted mean Σ(w·x)/Σw over the window, spec weights. -/
noncomputable def specMeanOf (s : List ℝ) : ℝ :=
  (List.zipWith (fun v w => v * w) (recentOf s) (specWtsOf s)).sum / (specWtsOf s).sum

/-- The spec's weighted variance Σ(w·(x-μ)²)/Σw, spec weights. -/
noncomputable def specVarianceOf (s : List ℝ) : ℝ :=
  (List.zipWith (fun v w => w * (v - specMeanOf s) ^ 2) (recentOf s) (specWtsOf s)).sum /
    (specWtsOf s).sum

/-- The spec's weighted std. -/
noncomputable def specStdOf (s : List ℝ) : ℝ := Real.sqrt (specVarianceOf s)

end VariantC

/-- C6: exporting the variant C parameters, resetting the model, then
importing the saved snapshot restores a state on which predictNextAbove7
is bit-identical to the pre-reset state on every input sequence. -/
theorem c6_parameter_roundtrip (P : VariantC.ModelParams) (s : List ℝ) :
    VariantC.predictNextAbove7
        (VariantC.setModelParameters (VariantC.getModelParameters P)
          (VariantC.resetModel P)) s =
      VariantC.predictNextAbove7 P s := by
  have h : VariantC.setModelParameters (VariantC.getModelParameters P)
      (VariantC.resetModel P) = P := rfl
  rw [h]

/-- C8: an update call whose PredictionResult lacks the retained feature
snapshot or the retained hidden activation is skipped and leaves every
model parameter unchanged. -/
theorem c8_missing_context_skips (P : VariantC.ModelParams) (actual : ℝ)
    (pr : VariantC.PredictionResult)
    (h : pr.features = none ∨ pr.hiddenActivation = none) :
    VariantC.updateModel actual pr P = P := by
  rcases h with h | h
  · cases hh : pr.hiddenActivation <;> simp [VariantC.updateModel, h, hh]
  · cases hf : pr.features <;> simp [VariantC.updateModel, h, hf]

/-- Witness for C8: a concrete prediction with no retained features leaves
the initial parameters untouched. -/
theorem c8_missing_context_skips_witness :
    VariantC.updateModel 8
        { willExceed7 := true, probability := 0.9, confidence := 80,
          features := none, hiddenActivation := some 1 }
        VariantC.initParams =
      VariantC.initParams :=
  c8_missing_context_skips VariantC.initParams 8 _ (Or.inl rfl)

namespace VariantC

lemma sum_zipWith_mul_scale :
    ∀ (l1 l2 : List ℝ) (c : ℝ),
      (List.zipWith (fun v w => v * (w * c)) l1 l2).sum =
        (List.zipWith (fun v w => v * w) l1 l2).sum * c := by
  intro l1
  induction l1 with
  | nil => intro l2 c; simp
  | cons a l ih =>
      intro l2 c
      cases l2 with
      | nil => simp
      | cons b t =>
          simp only [List.zipWith_cons_cons, List.sum_cons, ih]
          ring

lemma sum_zipWith_var_scale (μ : ℝ) :
    ∀ (l1 l2 : List ℝ) (c : ℝ),
      (List.zipWith (fun v w => w * c * (v - μ) ^ 2) l1 l2).sum =
        (List.zipWith (fun v w => w * (v - μ) ^ 2) l1 l2).sum * c := by
  intro l1
  induction l1 with
  | nil => intro l2 c; simp
  | cons a l ih =>
      intro l2 c
      cases l2 with
      | nil => simp
      | cons b t =>
          simp only [List.zipWith_cons_cons, List.sum_cons, ih]
          ring

lemma wtsOf_eq_scaled (s : List ℝ) :
    wtsOf s = (specWtsOf s).map fun w => w * DECAY_FACTOR := by
  rw [wtsOf, specWtsOf, List.map_map]
  refine List.map_congr_left fun i hi => ?_
  have hiN : i < NOf s := List.mem_range.1 hi
  have hexp : NOf s - i = (NOf s - 1 - i) + 1 := by omega
  simp only [Function.comp_apply, hexp, pow_succ]

lemma decay_ne_zero : DECAY_FACTOR ≠ 0 := by
  rw [DECAY_FACTOR]; norm_num

lemma meanOf_eq_specMeanOf (s : List ℝ) : meanOf s = specMeanOf s := by
  rw [meanOf, specMeanOf, totalWeightOf, wtsOf_eq_scaled,
    List.zipWith_map_right, sum_zipWith_mul_scale, List.sum_map_mul_right]
  simp only [List.map_id_fun', id]
  rw [mul_div_mul_right _ _ decay_ne_zero]

lemma varianceOf_eq_specVarianceOf (s : List ℝ) :
    varianceOf s = specVarianceOf s := by
  rw [varianceOf, specVarianceOf, totalWeightOf, wtsOf_eq_scaled,
    meanOf_eq_specMeanOf, List.zipWith_map_right, sum_zipWith_var_scale,
    List.sum_map_mul_right]
  simp only [List.map_id_fun', id]
  rw [mul_div_mul_right _ _ decay_ne_zero]

end VariantC

/-- C3: for every non-empty sequence, the weighted mean and weighted std
computed by variant C (with code weights 0.85^(N-i) over 0-based window
positions) agree exactly with the spec's weighted mean and std taken over
the same window with weights w_i = 0.85^(N-i) for i = 1..N, where the most
recent value (i = N) carries weight 1: the two weight vectors differ by
the constant factor 0.85, which cancels in both ratios. -/
theorem c3_weighted_features_match (s : List ℝ) (h : s ≠ []) :
    VariantC.meanOf s = VariantC.specMeanOf s ∧
    VariantC.stdOf s = VariantC.specStdOf s ∧
    (VariantC.specWtsOf s).getLast? = some 1 := by
  refine ⟨VariantC.meanOf_eq_specMeanOf s, ?_, ?_⟩
  · rw [VariantC.stdOf, VariantC.specStdOf, VariantC.varianceOf_eq_specVarianceOf]
  · have hN : VariantC.NOf s ≠ 0 := by
      rw [VariantC.NOf]
      have : s.length ≠ 0 := fun hc => h (List.length_eq_zero.1 hc)
      omega
    rw [VariantC.specWtsOf, List.getLast?_map, List.getLast?_range, if_neg hN]
    simp only [Option.map_some']
    norm_num

/-- Witness for C3 at the two-element sequence [2, 4]. -/
theorem c3_weighted_features_match_witness :
    VariantC.meanOf [2, 4] = VariantC.specMeanOf [2, 4] ∧
    VariantC.stdOf [2, 4] = VariantC.specStdOf [2, 4] ∧
    (VariantC.specWtsOf [2, 4]).getLast? = some 1 :=
  c3_weighted_features_match [2, 4] (by simp)

namespace VariantA

/-- Total view of categorize for in-range values (used only in statements
and spec-side folds; the in-range hypotheses make it agree with the
Except-valued categorize). -/
def stateD (x : ℚ) : ℕ := (categorize x).toOption.getD 0

/-- The transition matrix as a pure fold over the adjacent index pairs;
under the in-range hypotheses buildTransitionMatrix computes exactly this. -/
def pureTM (s : List ℚ) : List ((ℕ × ℕ) × ℕ) :=
  (List.range (s.length - 1)).foldl
    (fun m i => tmUpdate m (stateD (s.getD i 0), stateD (s.getD (i + 1) 0))) []

lemma categorize_ok_le {x : ℚ} {c : ℕ} (h : categorize x = .ok c) : c ≤ 2 := by
  unfold categorize at h
  split_ifs at h <;> cases h <;> omega

lemma categorize_eq_stateD {x : ℚ} (h1 : 1 ≤ x) (h2 : x ≤ 5) :
    categorize x = .ok (stateD x) := by
  obtain ⟨c, hc, -⟩ := categorize_isOk h1 h2
  rw [stateD, hc]
  rfl

lemma stateD_le_two (x : ℚ) : stateD x ≤ 2 := by
  rw [stateD]
  rcases hc : categorize x with e | c
  · exact Nat.zero_le 2
  · simpa using categorize_ok_le hc

lemma tmUpdate_snd_sum (k : ℕ × ℕ) :
    ∀ m : List ((ℕ × ℕ) × ℕ),
      ((tmUpdate m k).map Prod.snd).sum = (m.map Prod.snd).sum + 1 := by
  intro m
  induction m with
  | nil => simp [tmUpdate]
  | cons e rest ih =>
      obtain ⟨k', c⟩ := e
      rw [tmUpdate]
      by_cases hk : k' = k
      · rw [if_pos hk]
        simp only [List.map_cons, List.sum_cons]
        omega
      · rw [if_neg hk]
        simp only [List.map_cons, List.sum_cons, ih]
        omega

lemma tmUpdate_entries (Q : ℕ × ℕ → Prop) (k : ℕ × ℕ) (hQ : Q k) :
    ∀ m : List ((ℕ × ℕ) × ℕ), (∀ e ∈ m, Q e.1 ∧ 0 < e.2) →
      ∀ e ∈ tmUpdate m k, Q e.1 ∧ 0 < e.2 := by
  intro m
  induction m with
  | nil =>
      intro _ e he
      rw [tmUpdate] at he
      simp only [List.mem_singleton] at he
      subst he
      exact ⟨hQ, by omega⟩
  | cons hd rest ih =>
      obtain ⟨k', c⟩ := hd
      intro hm e he
      rw [tmUpdate] at he
      by_cases hk : k' = k
      · rw [if_pos hk] at he
        rcases List.mem_cons.1 he with rfl | hrest
        · exact ⟨(hm (k', c) (by simp)).1, by omega⟩
        · exact hm e (List.mem_cons_of_mem _ hrest)
      · rw [if_neg hk] at he
        rcases List.mem_cons.1 he with rfl | hrest
        · exact hm (k', c) (by simp)
        · exact ih (fun e' he' => hm e' (List.mem_cons_of_mem _ he')) e hrest

lemma tm_foldl_sum (ps : List (ℕ × ℕ)) :
    ∀ m0 : List ((ℕ × ℕ) × ℕ),
      ((ps.foldl tmUpdate m0).map Prod.snd).sum =
        (m0.map Prod.snd).sum + ps.length := by
  induction ps with
  | nil => intro m0; simp
  | cons p ps ih =>
      intro m0
      rw [List.foldl_cons, ih, tmUpdate_snd_sum]
      simp only [List.length_cons]
      omega

lemma tm_foldl_entries (Q : ℕ × ℕ → Prop) (ps : List (ℕ × ℕ))
    (hps : ∀ p ∈ ps, Q p) :
    ∀ m0 : List ((ℕ × ℕ) × ℕ), (∀ e ∈ m0, Q e.1 ∧ 0 < e.2) →
      ∀ e ∈ ps.foldl tmUpdate m0, Q e.1 ∧ 0 < e.2 := by
  induction ps with
  | nil => intro m0 hm0; simpa using hm0
  | cons p ps ih =>
      intro m0 hm0
      rw [List.foldl_cons]
      exact ih (fun q hq => hps q (List.mem_cons_of_mem _ hq)) _
        (tmUpdate_entries Q p (hps p (by simp)) m0 hm0)

lemma buildTM_ok {s : List ℚ} (h : ∀ x ∈ s, 1 ≤ x ∧ x ≤ 5) :
    buildTransitionMatrix s = .ok (pureTM s) := by
  rw [buildTransitionMatrix, pureTM]
  have key : ∀ k, k ≤ s.length - 1 → ∀ m0 : List ((ℕ × ℕ) × ℕ),
      List.foldlM
        (fun m i => do
          let fromState ← categorize (s.getD i 0)
          let toState ← categorize (s.getD (i + 1) 0)
          pure (tmUpdate m (fromState, toState)))
        m0 (List.range k) =
      Except.ok ((List.range k).foldl
        (fun m i => tmUpdate m (stateD (s.getD i 0), stateD (s.getD (i + 1) 0))) m0) := by
    intro k
    induction k with
    | zero => intro _ m0; rfl
    | succ k ih =>
        intro hk m0
        have hget : ∀ j, j < s.length → 1 ≤ s.getD j 0 ∧ s.getD j 0 ≤ 5 := by
          intro j hj
          rw [List.getD_eq_getElem s 0 hj]
          exact h _ (List.getElem_mem hj)
        have hk1 : k < s.length := by omega
        have hk2 : k + 1 < s.length := by omega
        rw [List.range_succ, List.foldlM_append, ih (by omega), List.foldl_append]
        simp only [List.foldlM_cons, List.foldlM_nil, List.foldl_cons, List.foldl_nil,
          categorize_eq_stateD (hget k hk1).1 (hget k hk1).2,
          categorize_eq_stateD (hget (k + 1) hk2).1 (hget (k + 1) hk2).2]
        rfl
  exact key (s.length - 1) (le_refl _) []

end VariantA

/-- C10: for every sequence of in-range values of length n at least 1,
buildTransitionMatrix succeeds and yields a record whose keys are ordered
pairs of states from 0..2, whose counts are all positive, and whose counts
sum to exactly n - 1 (as a Lean def it is a pure function of the sequence
by construction). -/
theorem c10_transition_matrix_invariants (s : List ℚ) (_h1 : 1 ≤ s.length)
    (h2 : ∀ x ∈ s, 1 ≤ x ∧ x ≤ 5) :
    VariantA.buildTransitionMatrix s = .ok (VariantA.pureTM s) ∧
    (∀ e ∈ VariantA.pureTM s, e.1.1 ≤ 2 ∧ e.1.2 ≤ 2 ∧ 0 < e.2) ∧
    ((VariantA.pureTM s).map Prod.snd).sum = s.length - 1 := by
  have hmap : VariantA.pureTM s =
      ((List.range (s.length - 1)).map
        (fun i => (VariantA.stateD (s.getD i 0),
          VariantA.stateD (s.getD (i + 1) 0)))).foldl VariantA.tmUpdate [] := by
    rw [VariantA.pureTM, List.foldl_map]
  refine ⟨VariantA.buildTM_ok h2, ?_, ?_⟩
  · intro e he
    rw [hmap] at he
    have hps : ∀ p ∈ (List.range (s.length - 1)).map
        (fun i => (VariantA.stateD (s.getD i 0),
          VariantA.stateD (s.getD (i + 1) 0))),
        p.1 ≤ 2 ∧ p.2 ≤ 2 := by
      intro p hp
      simp only [List.mem_map] at hp
      obtain ⟨i, -, rfl⟩ := hp
      exact ⟨VariantA.stateD_le_two _, VariantA.stateD_le_two _⟩
    have hres := VariantA.tm_foldl_entries (fun p => p.1 ≤ 2 ∧ p.2 ≤ 2) _ hps
      [] (by simp) e he
    exact ⟨hres.1.1, hres.1.2, hres.2⟩
  · rw [hmap, VariantA.tm_foldl_sum, List.length_map, List.length_range]
    simp

/-- Witness for C10 at the sequence [1, 4] (length 2, both in range): one
transition Low to High, counts summing to 1. -/
theorem c10_transition_matrix_invariants_witness :
    VariantA.buildTransitionMatrix [1, 4] = .ok (VariantA.pureTM [1, 4]) ∧
    (∀ e ∈ VariantA.pureTM [1, 4], e.1.1 ≤ 2 ∧ e.1.2 ≤ 2 ∧ 0 < e.2) ∧
    ((VariantA.pureTM [1, 4]).map Prod.snd).sum = [1, 4].length - 1 :=
  c10_transition_matrix_invariants [1, 4] (by norm_num)
    (by intro x hx; fin_cases hx <;> norm_num)

namespace VariantA

lemma statesOf_length {s : List ℚ} (h : ∀ x ∈ s, 1 ≤ x ∧ x ≤ 5) :
    (statesOf s).length = s.length := by
  induction s with
  | nil => rfl
  | cons a l ih =>
      obtain ⟨c, hc, -⟩ := categorize_isOk (h a (by simp)).1 (h a (by simp)).2
      have h2 : (categorize a).toOption = some c := by
        rw [hc]
        rfl
      have ihl := ih fun x hx => h x (by simp [hx])
      rw [statesOf] at ihl ⊢
      simp only [List.filterMap_cons, h2, List.length_cons, ihl]

lemma statesOf_le_two (s : List ℚ) : ∀ c ∈ statesOf s, c ≤ 2 := by
  intro c hc
  rw [statesOf] at hc
  obtain ⟨x, -, hx⟩ := List.mem_filterMap.1 hc
  rcases h : categorize x with e | c'
  · rw [h] at hx
    exact absurd hx (by simp [Except.toOption])
  · rw [h] at hx
    have hcc : c' = c := by simpa [Except.toOption] using hx
    exact hcc ▸ categorize_ok_le h

lemma countLe_trans (L : List ℕ) :
    ∀ a b c, countLe L a b = true → countLe L b c = true → countLe L a c = true := by
  intro a b c hab hbc
  simp only [countLe, decide_eq_true_eq] at hab hbc ⊢
  omega

lemma countLe_total (L : List ℕ) :
    ∀ a b, (countLe L a b || countLe L b a) = true := by
  intro a b
  simp only [countLe, Bool.or_eq_true, decide_eq_true_eq]
  omega

lemma sortedLags_perm (s : List ℚ) : (sortedLagsOf s).Perm (lagsOf s) :=
  List.mergeSort_perm (lagsOf s) (countLe (lagsOf s))

lemma sortedLags_concat {s : List ℚ} (h : lagsOf s ≠ []) :
    ∃ ys, sortedLagsOf s = ys ++ [modeOf s] := by
  have hne : sortedLagsOf s ≠ [] := by
    intro hc
    apply h
    have hlen := (sortedLags_perm s).length_eq
    rw [hc] at hlen
    exact List.length_eq_zero.1 hlen.symm
  rcases List.eq_nil_or_concat (sortedLagsOf s) with hc | ⟨ys, a, hya⟩
  · exact absurd hc hne
  · rw [List.concat_eq_append] at hya
    refine ⟨ys, ?_⟩
    have hmode : modeOf s = a := by
      rw [modeOf, hya, List.getLast?_concat]
      rfl
    rw [hya, hmode]

lemma modeOf_spec {s : List ℚ} (h : lagsOf s ≠ []) :
    modeOf s ∈ lagsOf s ∧
    ∀ v, (lagsOf s).count v ≤ (lagsOf s).count (modeOf s) := by
  obtain ⟨ys, hya⟩ := sortedLags_concat h
  have hperm := sortedLags_perm s
  have hpw : (sortedLagsOf s).Pairwise (fun a b => countLe (lagsOf s) a b = true) :=
    List.sorted_mergeSort (countLe_trans (lagsOf s)) (countLe_total (lagsOf s))
      (lagsOf s)
  rw [hya, List.pairwise_append] at hpw
  obtain ⟨-, -, hcross⟩ := hpw
  constructor
  · exact hperm.mem_iff.1 (by rw [hya]; simp)
  · intro v
    by_cases hv : v ∈ lagsOf s
    · have hv' : v ∈ sortedLagsOf s := hperm.mem_iff.2 hv
      rw [hya] at hv'
      rcases List.mem_append.1 hv' with hvd | hvl
      · have hle := hcross v hvd (modeOf s) (by simp)
        simpa [countLe, decide_eq_true_eq] using hle
      · have hvm : v = modeOf s := by simpa using hvl
        rw [hvm]
    · rw [List.count_eq_zero_of_not_mem hv]
      exact Nat.zero_le _

lemma lagsOf_ne_nil {s : List ℚ} (h1 : s ≠ [])
    (h2 : ∀ x ∈ s, 1 ≤ x ∧ x ≤ 5) : lagsOf s ≠ [] := by
  have hlen := statesOf_length h2
  have hs : s.length ≠ 0 := fun h0 => h1 (List.length_eq_zero.1 h0)
  rw [lagsOf]
  intro hc
  have hlc := congrArg List.length hc
  rw [List.length_drop, hlen, List.length_nil] at hlc
  omega

lemma predictNext_ok {s : List ℚ} (h : ∀ x ∈ s, 1 ≤ x ∧ x ≤ 5) :
    predictNext s = .ok
      { label := getCategoryLabel (modeOf s)
        confidence := calculateConfidence (sortedLagsOf s).dropLast } := by
  rw [predictNext, mapM_categorize_ok h]
  rfl

end VariantA

/-- C4: for every non-empty sequence of in-range values, the label
predictNext returns belongs to the state picked as the last element of the
stable count-ascending sort of the last-5 lag states, and that state is a
mode: its occurrence count among the lags is at least the count of every
other state. -/
theorem c4_mode_of_lags (s : List ℚ) (h1 : s ≠ [])
    (h2 : ∀ x ∈ s, 1 ≤ x ∧ x ≤ 5) :
    ∃ p, VariantA.predictNext s = .ok p ∧
      p.label = VariantA.getCategoryLabel (VariantA.modeOf s) ∧
      VariantA.modeOf s ∈ VariantA.lagsOf s ∧
      ∀ v, (VariantA.lagsOf s).count v ≤
        (VariantA.lagsOf s).count (VariantA.modeOf s) := by
  obtain ⟨hmem, hmax⟩ := VariantA.modeOf_spec (VariantA.lagsOf_ne_nil h1 h2)
  exact ⟨_, VariantA.predictNext_ok h2, rfl, hmem, hmax⟩

/-- Witness for C4 at the sequence [1, 1, 4]: two Low lags against one
High lag, so the picked state is the mode Low. -/
theorem c4_mode_of_lags_witness :
    ∃ p, VariantA.predictNext [1, 1, 4] = .ok p ∧
      p.label = VariantA.getCategoryLabel (VariantA.modeOf [1, 1, 4]) ∧
      VariantA.modeOf [1, 1, 4] ∈ VariantA.lagsOf [1, 1, 4] ∧
      ∀ v, (VariantA.lagsOf [1, 1, 4]).count v ≤
        (VariantA.lagsOf [1, 1, 4]).count (VariantA.modeOf [1, 1, 4]) :=
  c4_mode_of_lags [1, 1, 4] (by simp)
    (by intro x hx; fin_cases hx <;> norm_num)

namespace VariantA

lemma calculateConfidence_eq (L : List ℕ) :
    calculateConfidence L = (6 - (L.toFinset.card : ℤ)) * 20 := by
  rw [calculateConfidence]
  have hval : (((6 : ℚ) - L.toFinset.card) / 5) * 100 =
      (((6 - (L.toFinset.card : ℤ)) * 20 : ℤ) : ℚ) := by
    push_cast
    ring
  rw [hval, round_intCast]

lemma length_eq_counts {L : List ℕ} (h : ∀ c ∈ L, c ≤ 2) :
    L.length = L.count 0 + L.count 1 + L.count 2 := by
  induction L with
  | nil => rfl
  | cons a t ih =>
      have ha : a ≤ 2 := h a (by simp)
      have iht := ih fun c hc => h c (by simp [hc])
      simp only [List.count_cons, List.length_cons, iht]
      interval_cases a <;> simp <;> omega

lemma lagsOf_le_two (s : List ℚ) : ∀ c ∈ lagsOf s, c ≤ 2 := fun c hc =>
  statesOf_le_two s c (List.mem_of_mem_drop hc)

lemma lagsOf_length_five {s : List ℚ} (h1 : 5 ≤ s.length)
    (h2 : ∀ x ∈ s, 1 ≤ x ∧ x ≤ 5) : (lagsOf s).length = 5 := by
  rw [lagsOf, List.length_drop, statesOf_length h2]
  omega

lemma mode_count_two {s : List ℚ} (h1 : 5 ≤ s.length)
    (h2 : ∀ x ∈ s, 1 ≤ x ∧ x ≤ 5) :
    2 ≤ (lagsOf s).count (modeOf s) := by
  have hlne : lagsOf s ≠ [] := by
    intro hc
    have := lagsOf_length_five h1 h2
    rw [hc] at this
    simp at this
  obtain ⟨-, hmax⟩ := modeOf_spec hlne
  have hcounts := length_eq_counts (lagsOf_le_two s)
  rw [lagsOf_length_five h1 h2] at hcounts
  have hm0 := hmax 0
  have hm1 := hmax 1
  have hm2 := hmax 2
  omega

lemma dropLast_toFinset_eq {s : List ℚ} (h1 : 5 ≤ s.length)
    (h2 : ∀ x ∈ s, 1 ≤ x ∧ x ≤ 5) :
    ((sortedLagsOf s).dropLast).toFinset = (lagsOf s).toFinset := by
  have hlne : lagsOf s ≠ [] := by
    intro hc
    have := lagsOf_length_five h1 h2
    rw [hc] at this
    simp at this
  obtain ⟨ys, hya⟩ := sortedLags_concat hlne
  have hdl : (sortedLagsOf s).dropLast = ys := by
    rw [hya, List.dropLast_concat]
  have hcnt := (sortedLags_perm s).count_eq (modeOf s)
  rw [hya, List.count_append] at hcnt
  have hone : List.count (modeOf s) [modeOf s] = 1 := by simp
  have hcm := mode_count_two h1 h2
  have hys : 0 < ys.count (modeOf s) := by omega
  have hmemys : modeOf s ∈ ys := List.count_pos_iff.1 hys
  have htf := List.toFinset_eq_of_perm _ _ (sortedLags_perm s)
  rw [hya, List.toFinset_append] at htf
  simp only [List.toFinset_cons, List.toFinset_nil, insert_emptyc_eq] at htf
  rw [hdl, ← htf]
  exact (Finset.union_eq_left.2 (by simp [hmemys])).symm

lemma unique_bounds {s : List ℚ} (h1 : 5 ≤ s.length)
    (h2 : ∀ x ∈ s, 1 ≤ x ∧ x ≤ 5) :
    1 ≤ uniqueStatesInLast5 s ∧ uniqueStatesInLast5 s ≤ 3 := by
  have hlne : lagsOf s ≠ [] := by
    intro hc
    have := lagsOf_length_five h1 h2
    rw [hc] at this
    simp at this
  obtain ⟨x, hx⟩ := List.exists_mem_of_ne_nil _ hlne
  constructor
  · exact Finset.card_pos.2 ⟨x, List.mem_toFinset.2 hx⟩
  · have hsub : (lagsOf s).toFinset ⊆ ({0, 1, 2} : Finset ℕ) := by
      intro c hc
      have := lagsOf_le_two s c (List.mem_toFinset.1 hc)
      interval_cases c <;> simp
    simpa using Finset.card_le_card hsub

end VariantA

/-- C2 counterexample: on the empty sequence predictNext returns
confidence 120, outside [0, 100] (the pop leaves the empty lag list, whose
unique count 0 feeds the formula); and on [1, 3, 4] the .pop() removes the
sole occurrence of the chosen mode from the lag list before the unique
count is taken, so the returned confidence is 80 while the claimed formula
over the actual last-5 lag states (3 distinct states) yields 60. -/
theorem c2_confidence_counterexample :
    VariantA.predictNext [] = .ok { label := "Low", confidence := 120 } ∧
    ¬((120 : ℤ) ≤ 100) ∧
    VariantA.predictNext [1, 3, 4] = .ok { label := "High", confidence := 80 } ∧
    VariantA.uniqueStatesInLast5 [1, 3, 4] = 3 ∧
    ((6 - ((VariantA.uniqueStatesInLast5 [1, 3, 4] : ℤ) : ℚ)) / 5) * 100 = 60 ∧
    ((80 : ℤ) : ℚ) ≠ 60 := by
  have hnil : VariantA.predictNext [] = .ok { label := "Low", confidence := 120 } := by
    rw [VariantA.predictNext_ok (by simp)]
    have hs : VariantA.sortedLagsOf [] = [] := List.mergeSort_nil
    have hm : VariantA.modeOf [] = 0 := by
      rw [VariantA.modeOf, hs]
      rfl
    rw [hm, hs, VariantA.calculateConfidence_eq]
    rfl
  have h134 : VariantA.predictNext [1, 3, 4] =
      .ok { label := "High", confidence := 80 } := by
    rw [VariantA.predictNext_ok (by intro x hx; fin_cases hx <;> norm_num)]
    have hc1 : VariantA.categorize 1 = .ok 0 := by norm_num [VariantA.categorize]
    have hc3 : VariantA.categorize 3 = .ok 1 := by norm_num [VariantA.categorize]
    have hc4 : VariantA.categorize 4 = .ok 2 := by norm_num [VariantA.categorize]
    have hlags : VariantA.lagsOf [1, 3, 4] = [0, 1, 2] := by
      simp [VariantA.lagsOf, VariantA.statesOf, List.filterMap_cons, hc1, hc3,
        hc4, Except.toOption]
    have hs : VariantA.sortedLagsOf [1, 3, 4] = [0, 1, 2] := by
      rw [VariantA.sortedLagsOf, hlags]
      exact List.mergeSort_of_sorted (by decide)
    have hm : VariantA.modeOf [1, 3, 4] = 2 := by
      rw [VariantA.modeOf, hs]
      rfl
    rw [hm, hs, VariantA.calculateConfidence_eq]
    rfl
  have hc1 : VariantA.categorize 1 = .ok 0 := by norm_num [VariantA.categorize]
  have hc3 : VariantA.categorize 3 = .ok 1 := by norm_num [VariantA.categorize]
  have hc4 : VariantA.categorize 4 = .ok 2 := by norm_num [VariantA.categorize]
  have hu : VariantA.uniqueStatesInLast5 [1, 3, 4] = 3 := by
    rw [VariantA.uniqueStatesInLast5]
    have hlags : VariantA.lagsOf [1, 3, 4] = [0, 1, 2] := by
      simp [VariantA.lagsOf, VariantA.statesOf, List.filterMap_cons, hc1, hc3,
        hc4, Except.toOption]
    rw [hlags]
    decide
  refine ⟨hnil, by norm_num, h134, hu, ?_, by norm_num⟩
  rw [hu]
  norm_num

/-- C2 amended: for every sequence of at least five in-range values, the
confidence returned by predictNext equals ((6 - uniqueStatesInLast5)/5)*100
and lies in [0, 100] (with only 3 possible states, the unique count of a
5-element lag list is 1..3, so the confidence is 60, 80 or 100; the
element .pop() removes from the sorted lag list then has count at least 2,
so the removal no longer changes the set of distinct states). -/
theorem c2_confidence_formula (s : List ℚ) (h1 : 5 ≤ s.length)
    (h2 : ∀ x ∈ s, 1 ≤ x ∧ x ≤ 5) :
    ∃ p, VariantA.predictNext s = .ok p ∧
      (p.confidence : ℚ) =
        ((6 - (VariantA.uniqueStatesInLast5 s : ℚ)) / 5) * 100 ∧
      0 ≤ p.confidence ∧ p.confidence ≤ 100 := by
  refine ⟨_, VariantA.predictNext_ok h2, ?_, ?_, ?_⟩ <;>
    rw [VariantA.calculateConfidence_eq, VariantA.dropLast_toFinset_eq h1 h2]
  · rw [VariantA.uniqueStatesInLast5]
    push_cast
    ring
  · have := (VariantA.unique_bounds h1 h2).2
    rw [VariantA.uniqueStatesInLast5] at this
    dsimp only
    omega
  · have := (VariantA.unique_bounds h1 h2).1
    rw [VariantA.uniqueStatesInLast5] at this
    dsimp only
    omega

/-- Witness for C2 (amended) at [1, 2, 3, 4, 5]: states [0, 0, 1, 2, 2],
three distinct, confidence 60. -/
theorem c2_confidence_formula_witness :
    ∃ p, VariantA.predictNext [1, 2, 3, 4, 5] = .ok p ∧
      (p.confidence : ℚ) =
        ((6 - (VariantA.uniqueStatesInLast5 [1, 2, 3, 4, 5] : ℚ)) / 5) * 100 ∧
      0 ≤ p.confidence ∧ p.confidence ≤ 100 :=
  c2_confidence_formula [1, 2, 3, 4, 5] (by norm_num)
    (by intro x hx; fin_cases hx <;> norm_num)

set_option maxHeartbeats 1000000 in
/-- C5: with the initial logistic weights and features mean 5.43, std 1.47,
slope 2.7, the score is exactly z = 2.449 (≈ 2.45), the probability
sigmoid(z) is within 0.001 of 0.920, the decision is a predicted spike
(probability above 0.5), and the confidence is within 0.2 of 84. -/
theorem c5_logistic_scoring :
    VariantB.zScore VariantB.initWeights ⟨5.43, 1.47, 2.7⟩ = 2.449 ∧
    |VariantB.probOf VariantB.initWeights ⟨5.43, 1.47, 2.7⟩ - 0.920| < 0.001 ∧
    VariantB.probOf VariantB.initWeights ⟨5.43, 1.47, 2.7⟩ > 0.5 ∧
    |VariantB.confOf VariantB.initWeights ⟨5.43, 1.47, 2.7⟩ - 84| < 0.2 := by
  have hz : VariantB.zScore VariantB.initWeights ⟨5.43, 1.47, 2.7⟩ = 2.449 := by
    rw [VariantB.zScore, VariantB.initWeights]
    norm_num
  have habs : |(0.449 : ℝ)| = 0.449 := abs_of_pos (by norm_num)
  have hx : |(0.449 : ℝ)| ≤ 1 := by
    rw [habs]
    norm_num
  have hb := Real.exp_bound hx (show (0 : ℕ) < 7 by norm_num)
  simp only [Finset.sum_range_succ, Finset.sum_range_zero] at hb
  rw [habs] at hb
  norm_num [Nat.factorial] at hb
  obtain ⟨hb1, hb2⟩ := abs_sub_le_iff.1 hb
  have h449_lo : (1.566742 : ℝ) ≤ Real.exp 0.449 := by linarith
  have h449_hi : Real.exp 0.449 ≤ 1.566746 := by linarith
  have he1_lo := Real.exp_one_gt_d9
  have he1_hi := Real.exp_one_lt_d9
  have hepos1 : (0 : ℝ) < Real.exp 1 := Real.exp_pos 1
  have hepos449 : (0 : ℝ) < Real.exp 0.449 := Real.exp_pos 0.449
  have hE : Real.exp 2.449 = Real.exp 1 * Real.exp 1 * Real.exp 0.449 := by
    rw [← Real.exp_add, ← Real.exp_add]
    norm_num
  have ha2_lo : (7.38905609 : ℝ) ≤ Real.exp 1 * Real.exp 1 := by
    nlinarith [he1_lo, hepos1]
  have ha2_hi : Real.exp 1 * Real.exp 1 ≤ 7.38905611 := by
    nlinarith [he1_hi, hepos1]
  have hE_lo : (11.5767 : ℝ) ≤ Real.exp 2.449 := by
    rw [hE]
    nlinarith [ha2_lo, h449_lo, hepos449]
  have hE_hi : Real.exp 2.449 ≤ 11.5769 := by
    rw [hE]
    nlinarith [ha2_hi, h449_hi, hepos449, ha2_lo, h449_lo]
  have hupos : (0 : ℝ) < Real.exp (-2.449) := Real.exp_pos _
  have huE : Real.exp (-2.449) * Real.exp 2.449 = 1 := by
    rw [← Real.exp_add]
    norm_num
  have hu_lo : (0.086378 : ℝ) ≤ Real.exp (-2.449) := by
    nlinarith [huE, hE_hi, hupos, mul_nonneg hupos.le (by linarith : (0 : ℝ) ≤ 11.5769 - Real.exp 2.449)]
  have hu_hi : Real.exp (-2.449) ≤ 0.086381 := by
    nlinarith [huE, hE_lo, hupos, mul_nonneg hupos.le (by linarith : (0 : ℝ) ≤ Real.exp 2.449 - 11.5767)]
  have hp : VariantB.probOf VariantB.initWeights ⟨5.43, 1.47, 2.7⟩ =
      1 / (1 + Real.exp (-2.449)) := by
    rw [VariantB.probOf, hz, VariantB.sigmoid]
  have hden : (0 : ℝ) < 1 + Real.exp (-2.449) := by linarith
  have hp_lo : (0.9204 : ℝ) ≤ VariantB.probOf VariantB.initWeights ⟨5.43, 1.47, 2.7⟩ := by
    rw [hp, le_div_iff₀ hden]
    linarith
  have hp_hi : VariantB.probOf VariantB.initWeights ⟨5.43, 1.47, 2.7⟩ ≤ 0.9205 := by
    rw [hp, div_le_iff₀ hden]
    linarith
  refine ⟨hz, ?_, by linarith, ?_⟩
  · rw [abs_lt]
    constructor <;> linarith
  · have hconf : VariantB.confOf VariantB.initWeights ⟨5.43, 1.47, 2.7⟩ =
        (VariantB.probOf VariantB.initWeights ⟨5.43, 1.47, 2.7⟩ - 0.5) * 200 := by
      rw [VariantB.confOf,
        abs_of_nonneg (by linarith :
          (0 : ℝ) ≤ VariantB.probOf VariantB.initWeights ⟨5.43, 1.47, 2.7⟩ - 0.5)]
      exact min_eq_right (by linarith)
    rw [hconf, abs_lt]
    constructor <;> linarith
